import Mathlib

/-!
Shallow embedding of the rtext-lsp-adapter core (src/rtext/client.ts and
src/rtext/connectorManager.ts, with src/rtext/config.ts as the resolution
collaborator).

Modelling conventions:
  - the Node event loop is explicit: each socket callback, promise
    continuation and timer body of client.ts becomes a state transition on
    a ClientModel record, and a run is a list of such events folded over
    the initial state;
  - promises returned by send are identified by their invocation id (the
    id counter is never reset, so ids are unique over a client lifetime);
    every call of resolveFunc or rejectFunc is appended to a settlement
    log, so that settled-exactly-once properties are statements about
    that log;
  - the message codec (serialize and the extract loop of onData) is kept
    abstract: inbound bytes are modelled as the list of decoded frames,
    and the write of a serialized request is recorded as the stamped
    message itself in a write log;
  - external processes and timers are recorded by counters (spawnCount,
    reconnectTimersSet, verifierCalls) so that at-most-once scheduling
    claims become arithmetic on those counters.
-/

/-- The enum ClientState of client.ts. -/
inductive ClientState
  | Initial
  | Starting
  | StartFailed
  | Running
  | Stopping
  | Stopped
deriving DecidableEq

/-- A decoded inbound protocol message, the obj produced by Message.extract
in onData.  Only the fields inspected by the dispatch loop are kept. -/
structure Frame where
  type : String
  invocation_id : Nat
deriving DecidableEq

/-- The caller-supplied request body handed to send, before stamping. -/
structure RequestData where
  command : String
deriving DecidableEq

/-- A request body after send stamped it with type, version and
invocation id, as written to the socket. -/
structure StampedRequest where
  command : String
  type : String
  version : Nat
  invocation_id : Nat
deriving DecidableEq

/-- One entry of the pending request list of client.ts.  The resolve and
reject closures are not stored here; settlements are logged on the
client state instead, keyed by invocation id. -/
structure PendingRequest where
  invocationId : Nat
  command : String
  hasProgressCallback : Bool
deriving DecidableEq

/-- A call of resolveFunc (with the frame) or rejectFunc (with the error
message) on the promise of one request. -/
inductive Outcome
  | resolved (frame : Frame)
  | rejected (message : String)
deriving DecidableEq

/-- Result of the synchronous part of send. -/
inductive SendResult
  | rejectedNotConnected
  | deferred (invocationId : Nat)
deriving DecidableEq

/-- Result of the synchronous part of start. -/
inductive StartResult
  | throwStopping
  | joinedInFlight
  | started
deriving DecidableEq

/-- Result of the synchronous part of stop. -/
inductive StopResult
  | noop
  | joinedInFlight
  | throwNoStopPromise
  | initiated
deriving DecidableEq

/-- The mutable state of one Client of client.ts, together with the
observation logs described in the header comment. -/
structure ClientModel where
  invocationCounter : Nat
  connected : Bool
  state : ClientState
  onStartSome : Bool
  onStopSome : Bool
  keepAlive : Bool
  reconnectScheduled : Bool
  reconnectTimersSet : Nat
  pending : List PendingRequest
  settled : List (Nat × Outcome)
  written : List StampedRequest
  progressCalls : List (Nat × Frame)
  spawnCount : Nat
  verifierCalls : Nat
deriving DecidableEq

/-- The state built by the Client constructor. -/
def initClient : ClientModel :=
  { invocationCounter := 0
    connected := false
    state := ClientState.Initial
    onStartSome := false
    onStopSome := false
    keepAlive := false
    reconnectScheduled := false
    reconnectTimersSet := 0
    pending := []
    settled := []
    written := []
    progressCalls := []
    spawnCount := 0
    verifierCalls := 0 }

/-- Client.send of client.ts.  If not connected it returns an immediately
rejected promise and changes nothing; otherwise it stamps the body with
type request, version 1 and the current invocation counter, registers a
PendingRequest, writes the serialized message and increments the
counter.  The returned promise is identified by the stamped id. -/
def send (data : RequestData) (hasProgress : Bool) (c : ClientModel) :
    SendResult × ClientModel :=
  if !c.connected then (SendResult.rejectedNotConnected, c)
  else
    let stamped : StampedRequest :=
      { command := data.command
        type := "request"
        version := 1
        invocation_id := c.invocationCounter }
    let request : PendingRequest :=
      { invocationId := c.invocationCounter
        command := data.command
        hasProgressCallback := hasProgress }
    (SendResult.deferred c.invocationCounter,
      { c with
        pending := c.pending ++ [request]
        written := c.written ++ [stamped]
        invocationCounter := c.invocationCounter + 1 })

/-- The body of the while loop of Client.onData for one decoded frame,
expressed as structural recursion over the pending list: findIndex
locates the first request whose invocationId equals the invocation id of
the frame, a response resolves it and splices it out, a progress frame
invokes the progress callback when one is registered, the two protocol
error frames splice the request out (without calling rejectFunc), and
any other type leaves the list unchanged.  Returns the new pending list,
the settlement calls made and the progress calls made. -/
def dispatchPending (obj : Frame) :
    List PendingRequest →
      List PendingRequest × List (Nat × Outcome) × List (Nat × Frame)
  | [] => ([], [], [])
  | r :: rs =>
    if r.invocationId == obj.invocation_id then
      if obj.type == "response" then
        (rs, [(r.invocationId, Outcome.resolved obj)], [])
      else if obj.type == "progress" then
        if r.hasProgressCallback then (r :: rs, [], [(r.invocationId, obj)])
        else (r :: rs, [], [])
      else if obj.type == "unknown_command_error" then (rs, [], [])
      else if obj.type == "unsupported_version" then (rs, [], [])
      else (r :: rs, [], [])
    else
      let rest := dispatchPending obj rs
      (r :: rest.1, rest.2.1, rest.2.2)

/-- Dispatch of one decoded frame against the client state. -/
def dispatchFrame (obj : Frame) (c : ClientModel) : ClientModel :=
  let rest := dispatchPending obj c.pending
  { c with
    pending := rest.1
    settled := c.settled ++ rest.2.1
    progressCalls := c.progressCalls ++ rest.2.2 }

/-- Client.onData of client.ts on one data event, with the byte buffer
abstracted to the list of frames the extract loop decodes from it. -/
def onData (frames : List Frame) (c : ClientModel) : ClientModel :=
  frames.foldl (fun acc f => dispatchFrame f acc) c

/-- Client.onClose of client.ts: mark disconnected, call rejectFunc of
every pending request with the connection-closed error (the list itself
is not cleared), cancel the keep-alive interval, and if the state is
Running schedule one reconnect timer that will call start. -/
def onClose (c : ClientModel) : ClientModel :=
  let c1 :=
    { c with
      connected := false
      settled := c.settled ++ c.pending.map
        (fun r => (r.invocationId,
          Outcome.rejected "RText service connection closed"))
      keepAlive := false }
  if c.state = ClientState.Running then
    { c1 with
      reconnectScheduled := true
      reconnectTimersSet := c1.reconnectTimersSet + 1 }
  else c1

/-- The connect callback of the socket (Client.onConnect). -/
def onConnect (c : ClientModel) : ClientModel :=
  { c with connected := true }

/-- The synchronous part of Client.start: throw when Stopping, join the
in-flight promise when one exists, otherwise move to Starting and invoke
runRTextService, which spawns the server process. -/
def start (c : ClientModel) : StartResult × ClientModel :=
  if c.state = ClientState.Stopping then (StartResult.throwStopping, c)
  else if c.onStartSome then (StartResult.joinedInFlight, c)
  else
    (StartResult.started,
      { c with
        state := ClientState.Starting
        onStartSome := true
        spawnCount := c.spawnCount + 1 })

/-- The then continuation of start, run when runRTextService resolved
with a port: a fresh socket is wired, the keep-alive interval is
scheduled and the state becomes Running (the connect callback fires
separately as onConnect). -/
def startResolve (c : ClientModel) : ClientModel :=
  { c with keepAlive := true, state := ClientState.Running }

/-- The catch continuation of start, run on a launch failure: the state
becomes StartFailed and the in-flight marker is cleared. -/
def startReject (c : ClientModel) : ClientModel :=
  { c with state := ClientState.StartFailed, onStartSome := false }

/-- The synchronous part of Client.stop: return when Stopped or Initial,
join the in-flight promise when Stopping, otherwise cancel the reconnect
timer and the keep-alive interval, move to Stopping and call stopService,
whose synchronous part runs send with the stop command. -/
def stop (c : ClientModel) : StopResult × ClientModel :=
  if c.state = ClientState.Stopped ∨ c.state = ClientState.Initial then
    (StopResult.noop, c)
  else if c.state = ClientState.Stopping then
    if c.onStopSome then (StopResult.joinedInFlight, c)
    else (StopResult.throwNoStopPromise, c)
  else
    let c1 :=
      { c with
        reconnectScheduled := false
        keepAlive := false
        state := ClientState.Stopping }
    let c2 := (send { command := "stop" } false c1).2
    (StopResult.initiated, { c2 with onStopSome := true })

/-- The finally continuation of stop, run whatever the outcome of the
graceful stop request was: checkProcessDied is invoked, the state becomes
Stopped and the cached start and stop promises are cleared. -/
def stopFinally (c : ClientModel) : ClientModel :=
  { c with
    verifierCalls := c.verifierCalls + 1
    state := ClientState.Stopped
    onStartSome := false
    onStopSome := false }

/-- The reconnect timer body scheduled by onClose: the timer is no longer
pending and start is invoked again. -/
def reconnectFire (c : ClientModel) : ClientModel :=
  (start { c with reconnectScheduled := false }).2

/-- One event of the event loop acting on a Client. -/
inductive Event
  | send (d : RequestData) (hasProgress : Bool)
  | dispatch (f : Frame)
  | close
  | connect
  | startCall
  | startResolve
  | startReject
  | stopCall
  | stopFinally
  | reconnectFire
deriving DecidableEq

/-- Apply one event to a client state. -/
def applyEvent (c : ClientModel) : Event → ClientModel
  | Event.send d hp => (send d hp c).2
  | Event.dispatch f => dispatchFrame f c
  | Event.close => onClose c
  | Event.connect => onConnect c
  | Event.startCall => (start c).2
  | Event.startResolve => startResolve c
  | Event.startReject => startReject c
  | Event.stopCall => (stop c).2
  | Event.stopFinally => stopFinally c
  | Event.reconnectFire => reconnectFire c

/-- Run an event trace from the constructor state. -/
def run (es : List Event) : ClientModel :=
  es.foldl applyEvent initClient

/-- Number of settlement calls logged for the promise of invocation id i. -/
def settledCount (i : Nat) (c : ClientModel) : Nat :=
  c.settled.countP (fun s => s.1 == i)

/-!
ConnectorManager of connectorManager.ts.  Connector instances created by
the injected constructor are modelled as allocation tokens (a counter of
the manager), so that instance identity is token equality and a stop call
on a connector is logged.  The filesystem, the crypto hash and the
resolution collaborators of config.ts (Config.find_service_config and
Config.file_pattern, which read the real filesystem) are abstracted into
an environment record fixed per call.
-/

/-- The ServiceConfig record of config.ts. -/
structure ServiceConfig where
  file : String
  patterns : List String
  command : String
deriving DecidableEq

/-- One cache entry of the manager: the connector token and the checksum
of the descriptor file at creation time (none when the file did not
exist). -/
structure ConnectorDesc where
  connector : Nat
  checksum : Option String
deriving DecidableEq

/-- The external world as seen by one connectorForFile call: the config
resolution collaborators of config.ts and the fs and crypto primitives
used by configChecksum. -/
structure CMEnv where
  findServiceConfig : String → Option ServiceConfig
  filePattern : String → String
  fsExists : String → Bool
  fsReadBytes : String → List Nat
  sha1hex : List Nat → String

/-- The state of one ConnectorManager: the Map of cache entries as an
association list, the next fresh connector token, and the log of stop
calls made on connectors. -/
structure ConnectorManager where
  connectorDescs : List (String × ConnectorDesc)
  nextConnectorId : Nat
  stopLog : List Nat
deriving DecidableEq

/-- A freshly constructed ConnectorManager. -/
def initCM : ConnectorManager :=
  { connectorDescs := [], nextConnectorId := 0, stopLog := [] }

/-- Map.get of the cache map. -/
def mapGet (m : List (String × ConnectorDesc)) (k : String) :
    Option ConnectorDesc :=
  (m.find? (fun e => e.1 == k)).map (fun e => e.2)

/-- Map.set of the cache map: replace the entry of an existing key,
otherwise append a new entry. -/
def mapSet (m : List (String × ConnectorDesc)) (k : String)
    (v : ConnectorDesc) : List (String × ConnectorDesc) :=
  match m with
  | [] => [(k, v)]
  | e :: rest => if e.1 == k then (k, v) :: rest else e :: mapSet rest k v

/-- Lowercasing of a string, written as a structural map over the
characters so that it evaluates inside the kernel; it models the
toLowerCase call of descKey. -/
def strToLower (s : String) : String :=
  String.mk (s.data.map Char.toLower)

/-- ConnectorManager.descKey. -/
def descKey (config : ServiceConfig) (pattern : String) : String :=
  strToLower config.file ++ "," ++ pattern

/-- ConnectorManager.configChecksum: the sha1 hex digest of the bytes of
the descriptor file when it exists, none otherwise. -/
def configChecksum (env : CMEnv) (config : ServiceConfig) : Option String :=
  if env.fsExists config.file then
    some (env.sha1hex (env.fsReadBytes config.file))
  else none

/-- ConnectorManager.createConnector: construct a fresh connector, cache
it under the identity key together with the current checksum, return it. -/
def createConnector (env : CMEnv) (config : ServiceConfig)
    (pattern : String) (m : ConnectorManager) : Nat × ConnectorManager :=
  let key := descKey config pattern
  let con := m.nextConnectorId
  let desc : ConnectorDesc :=
    { connector := con, checksum := configChecksum env config }
  (con,
    { m with
      connectorDescs := mapSet m.connectorDescs key desc
      nextConnectorId := m.nextConnectorId + 1 })

/-- ConnectorManager.connectorForFile: resolve the service config of the
file; on a cache hit return the cached connector when the stored checksum
equals the current one (the loose js equality on string-or-undefined is
Option String equality), otherwise stop the stale connector and create a
replacement; on a cache miss create a connector. -/
def connectorForFile (env : CMEnv) (file : String) (m : ConnectorManager) :
    Option Nat × ConnectorManager :=
  match env.findServiceConfig file with
  | none => (none, m)
  | some config =>
    let filePattern := env.filePattern file
    let key := descKey config filePattern
    match mapGet m.connectorDescs key with
    | some desc =>
      if desc.checksum == configChecksum env config then
        (some desc.connector, m)
      else
        let m1 := { m with stopLog := m.stopLog ++ [desc.connector] }
        let created := createConnector env config filePattern m1
        (some created.1, created.2)
    | none =>
      let created := createConnector env config filePattern m
      (some created.1, created.2)

/-- ConnectorManager.allConnectors: every cached connector. -/
def allConnectors (m : ConnectorManager) : List Nat :=
  m.connectorDescs.map (fun e => e.2.connector)

/-- One lookup request against a manager. -/
def applyLookup (m : ConnectorManager) (q : CMEnv × String) :
    ConnectorManager :=
  (connectorForFile q.1 q.2 m).2

/-- Run a sequence of lookups from a fresh manager. -/
def runCM (qs : List (CMEnv × String)) : ConnectorManager :=
  qs.foldl applyLookup initCM

/-!
Invariant definitions and concrete traces used by the claim theorems.
-/

/-- No two currently pending requests share an invocation id. -/
def pendingDistinct (c : ClientModel) : Prop :=
  c.pending.Pairwise (fun a b => a.invocationId ≠ b.invocationId)

/-- Structural facts about ids: pending ids are distinct and below the
counter, and every settlement logged is for an id below the counter. -/
def IdsInv (c : ClientModel) : Prop :=
  pendingDistinct c ∧
  (∀ p ∈ c.pending, p.invocationId < c.invocationCounter) ∧
  (∀ s ∈ c.settled, s.1 < c.invocationCounter)

/-- While Starting a start promise is cached, and while Stopping a stop
promise is cached. -/
def StateInv (c : ClientModel) : Prop :=
  (c.state = ClientState.Starting → c.onStartSome = true) ∧
  (c.state = ClientState.Stopping → c.onStopSome = true)

/-- On a connection that was never closed: pending requests are still
unsettled, and no promise ever received two settlement calls. -/
def SettleInv (c : ClientModel) : Prop :=
  (∀ p ∈ c.pending, settledCount p.invocationId c = 0) ∧
  (∀ i, settledCount i c ≤ 1)

/-- A start that reached Running with a connected socket. -/
def esBase : List Event := [Event.startCall, Event.startResolve, Event.connect]

/-- Running client with one request in flight, then an
unknown_command_error frame answering it. -/
def esC1 : List Event :=
  esBase ++ [Event.send { command := "version" } false,
    Event.dispatch { type := "unknown_command_error", invocation_id := 0 }]

/-- Running client with one request in flight. -/
def esC2 : List Event :=
  esBase ++ [Event.send { command := "load_model" } true]

/-- A descriptor config whose file is absent from the model filesystem. -/
def cfg0 : ServiceConfig :=
  { file := "d/.rtext", patterns := ["*.x"], command := "svc" }

/-- Environment where the resource resolves to cfg0 but the descriptor
file does not exist on disk. -/
def env0 : CMEnv :=
  { findServiceConfig := fun f => if f == "d/a.x" then some cfg0 else none
    filePattern := fun _ => "*.x"
    fsExists := fun _ => false
    fsReadBytes := fun _ => []
    sha1hex := fun _ => "h" }

/-- A descriptor config whose file exists in the model filesystem. -/
def cfgW : ServiceConfig :=
  { file := "w/.rtext", patterns := ["*.w"], command := "svc" }

/-- Environment where the resource resolves to cfgW and the descriptor
file exists with checksum h1. -/
def envA : CMEnv :=
  { findServiceConfig := fun f => if f == "w/a.w" then some cfgW else none
    filePattern := fun _ => "*.w"
    fsExists := fun _ => true
    fsReadBytes := fun _ => [1]
    sha1hex := fun _ => "h1" }

/-- The same environment after the descriptor file content changed, so
its checksum is now h2. -/
def envB : CMEnv :=
  { envA with sha1hex := fun _ => "h2" }

/-!
Lemmas about the dispatch loop of onData.
-/

theorem dispatchPending_sublist (obj : Frame) (l : List PendingRequest) :
    (dispatchPending obj l).1.Sublist l := by
  induction l with
  | nil => exact List.Sublist.refl _
  | cons r rs ih =>
    simp only [dispatchPending]
    repeat' split
    all_goals
      first
        | exact List.Sublist.refl _
        | exact List.sublist_cons_self r rs
        | exact List.Sublist.cons₂ r ih

theorem dispatchPending_settle_src (obj : Frame) (l : List PendingRequest) :
    ∀ x ∈ (dispatchPending obj l).2.1, ∃ r ∈ l, x.1 = r.invocationId := by
  induction l with
  | nil => intro x hx; simp [dispatchPending] at hx
  | cons r rs ih =>
    intro x hx
    simp only [dispatchPending] at hx
    split at hx
    · split at hx
      · rw [List.mem_singleton] at hx
        subst hx
        exact ⟨r, List.mem_cons_self r rs, rfl⟩
      · split at hx
        · split at hx <;> simp at hx
        · split at hx
          · simp at hx
          · split at hx <;> simp at hx
    · obtain ⟨r2, hr2, hx2⟩ := ih x hx
      exact ⟨r2, List.mem_cons_of_mem r hr2, hx2⟩

theorem dispatchPending_settle_len (obj : Frame) (l : List PendingRequest) :
    (dispatchPending obj l).2.1.length ≤ 1 := by
  induction l with
  | nil => simp [dispatchPending]
  | cons r rs ih =>
    simp only [dispatchPending]
    repeat' split
    all_goals simp_all

theorem dispatchPending_settle_id (obj : Frame) (l : List PendingRequest) :
    ∀ x ∈ (dispatchPending obj l).2.1, x.1 = obj.invocation_id := by
  induction l with
  | nil => simp [dispatchPending]
  | cons r rs ih =>
    intro x hx
    simp only [dispatchPending] at hx
    split at hx
    · rename_i h1
      split at hx
      · rw [List.mem_singleton] at hx
        subst hx
        show r.invocationId = obj.invocation_id
        exact beq_iff_eq.mp h1
      · split at hx
        · split at hx <;> simp at hx
        · split at hx
          · simp at hx
          · split at hx <;> simp at hx
    · exact ih x hx

theorem dispatchPending_settle_type (obj : Frame) :
    ∀ l : List PendingRequest,
      (dispatchPending obj l).2.1 ≠ [] → obj.type = "response" := by
  intro l
  induction l with
  | nil => intro hne; simp [dispatchPending] at hne
  | cons r rs ih =>
    intro hne
    simp only [dispatchPending] at hne
    split at hne
    · split at hne
      · rename_i h2
        exact beq_iff_eq.mp h2
      · split at hne
        · split at hne <;> simp at hne
        · split at hne
          · simp at hne
          · split at hne <;> simp at hne
    · exact ih hne

theorem dispatchPending_error (obj : Frame)
    (herr : obj.type = "unknown_command_error" ∨
      obj.type = "unsupported_version") (l : List PendingRequest) :
    (dispatchPending obj l).2.1 = [] ∧ (dispatchPending obj l).2.2 = [] := by
  induction l with
  | nil => simp [dispatchPending]
  | cons r rs ih =>
    rcases herr with ht | ht <;>
      cases h1 : (r.invocationId == obj.invocation_id) <;>
        simp [dispatchPending, h1, ht, ih]

theorem dispatchPending_response (obj : Frame) (hresp : obj.type = "response")
    (l : List PendingRequest) :
    (dispatchPending obj l).2.1 =
      if l.any (fun r => r.invocationId == obj.invocation_id) then
        [(obj.invocation_id, Outcome.resolved obj)]
      else [] := by
  induction l with
  | nil => simp [dispatchPending]
  | cons r rs ih =>
    cases h1 : (r.invocationId == obj.invocation_id)
    · simp [dispatchPending, h1, hresp, List.any_cons, ih]
    · have hre : r.invocationId = obj.invocation_id := beq_iff_eq.mp h1
      simp [dispatchPending, h1, hresp, List.any_cons, ih, hre]

theorem dispatchPending_terminal_pending (obj : Frame)
    (hterm : obj.type = "response" ∨ obj.type = "unknown_command_error" ∨
      obj.type = "unsupported_version") :
    ∀ l : List PendingRequest,
      l.Pairwise (fun a b => a.invocationId ≠ b.invocationId) →
        (dispatchPending obj l).1 =
          l.filter (fun r => r.invocationId != obj.invocation_id) := by
  intro l
  induction l with
  | nil => intro _; simp [dispatchPending]
  | cons r rs ih =>
    intro hdist
    rw [List.pairwise_cons] at hdist
    obtain ⟨hhead, htail⟩ := hdist
    cases h1 : (r.invocationId == obj.invocation_id)
    · have hne : r.invocationId ≠ obj.invocation_id := beq_eq_false_iff_ne.mp h1
      rcases hterm with ht | ht | ht <;>
        simp [dispatchPending, h1, ht, List.filter_cons, bne, ih htail]
    · have hre : r.invocationId = obj.invocation_id := beq_iff_eq.mp h1
      have hfilter :
          rs.filter (fun r2 => r2.invocationId != obj.invocation_id) = rs := by
        rw [List.filter_eq_self]
        intro a ha
        rw [bne_iff_ne]
        rw [← hre]
        exact fun hEq => hhead a ha hEq.symm
      rcases hterm with ht | ht | ht <;>
        simp [dispatchPending, h1, ht, List.filter_cons, hre, hfilter]

theorem dispatchPending_other (obj : Frame)
    (h1 : obj.type ≠ "response") (h2 : obj.type ≠ "unknown_command_error")
    (h3 : obj.type ≠ "unsupported_version") (l : List PendingRequest) :
    (dispatchPending obj l).1 = l ∧ (dispatchPending obj l).2.1 = [] := by
  induction l with
  | nil => simp [dispatchPending]
  | cons r rs ih =>
    have hb1 : (obj.type == "response") = false := beq_eq_false_iff_ne.mpr h1
    have hb2 : (obj.type == "unknown_command_error") = false :=
      beq_eq_false_iff_ne.mpr h2
    have hb3 : (obj.type == "unsupported_version") = false :=
      beq_eq_false_iff_ne.mpr h3
    cases hm : (r.invocationId == obj.invocation_id)
    · simp [dispatchPending, hm, ih]
    · cases hpr : (obj.type == "progress")
      · simp [dispatchPending, hm, hb1, hb2, hb3, hpr]
      · cases hcb : r.hasProgressCallback <;>
          simp [dispatchPending, hm, hb1, hcb, hpr]

theorem dispatchPending_settle_fresh (obj : Frame) (l : List PendingRequest)
    (hdist : l.Pairwise (fun a b => a.invocationId ≠ b.invocationId)) :
    ∀ x ∈ (dispatchPending obj l).2.1, ∀ r2 ∈ (dispatchPending obj l).1,
      x.1 ≠ r2.invocationId := by
  intro x hx r2 hr2
  have htype : obj.type = "response" :=
    dispatchPending_settle_type obj l (List.ne_nil_of_mem hx)
  have hx1 : x.1 = obj.invocation_id := dispatchPending_settle_id obj l x hx
  rw [dispatchPending_terminal_pending obj (Or.inl htype) l hdist] at hr2
  rw [List.mem_filter] at hr2
  rw [hx1]
  exact fun hEq => (bne_iff_ne.mp hr2.2) hEq.symm

theorem dispatchPending_no_match (obj : Frame) (l : List PendingRequest)
    (h : ∀ r ∈ l, r.invocationId ≠ obj.invocation_id) :
    dispatchPending obj l = (l, [], []) := by
  induction l with
  | nil => simp [dispatchPending]
  | cons r rs ih =>
    have hb : (r.invocationId == obj.invocation_id) = false :=
      beq_eq_false_iff_ne.mpr (h r (List.mem_cons_self r rs))
    have ihr := ih (fun r2 hr2 => h r2 (List.mem_cons_of_mem r hr2))
    simp [dispatchPending, hb, ihr]

theorem dispatchFrame_no_match (obj : Frame) (c : ClientModel)
    (h : ∀ r ∈ c.pending, r.invocationId ≠ obj.invocation_id) :
    dispatchFrame obj c = c := by
  simp [dispatchFrame, dispatchPending_no_match obj c.pending h]

/-- Fields of the client state that send never modifies. -/
theorem send_proj (d : RequestData) (hp : Bool) (c : ClientModel) :
    (send d hp c).2.state = c.state ∧
    (send d hp c).2.connected = c.connected ∧
    (send d hp c).2.onStartSome = c.onStartSome ∧
    (send d hp c).2.onStopSome = c.onStopSome ∧
    (send d hp c).2.keepAlive = c.keepAlive ∧
    (send d hp c).2.reconnectScheduled = c.reconnectScheduled ∧
    (send d hp c).2.settled = c.settled ∧
    (send d hp c).2.verifierCalls = c.verifierCalls ∧
    (send d hp c).2.reconnectTimersSet = c.reconnectTimersSet ∧
    (send d hp c).2.spawnCount = c.spawnCount := by
  unfold send
  split <;> simp

/-!
Preservation of the invariants by every event.
-/

theorem IdsInv_send (d : RequestData) (hp : Bool) (c : ClientModel)
    (h : IdsInv c) : IdsInv (send d hp c).2 := by
  obtain ⟨h1, h2, h3⟩ := h
  unfold send
  cases hc : (!c.connected)
  · rw [if_neg (by simp [hc])]
    refine ⟨?_, ?_, ?_⟩
    · rw [pendingDistinct]
      show List.Pairwise _ (c.pending ++
        [{ invocationId := c.invocationCounter, command := d.command,
           hasProgressCallback := hp }])
      rw [List.pairwise_append]
      refine ⟨h1, List.pairwise_singleton _ _, ?_⟩
      intro a ha b hb
      rw [List.mem_singleton] at hb
      subst hb
      exact Nat.ne_of_lt (h2 a ha)
    · intro p hpmem
      show p.invocationId < c.invocationCounter + 1
      rw [List.mem_append] at hpmem
      rcases hpmem with hpm | hpm
      · exact Nat.lt_succ_of_lt (h2 p hpm)
      · rw [List.mem_singleton] at hpm
        subst hpm
        exact Nat.lt_succ_self _
    · intro s hs
      exact Nat.lt_succ_of_lt (h3 s hs)
  · rw [if_pos (by simp [hc])]
    exact ⟨h1, h2, h3⟩

theorem IdsInv_dispatch (f : Frame) (c : ClientModel) (h : IdsInv c) :
    IdsInv (dispatchFrame f c) := by
  obtain ⟨h1, h2, h3⟩ := h
  refine ⟨?_, ?_, ?_⟩
  · exact List.Pairwise.sublist (dispatchPending_sublist f c.pending) h1
  · intro p hpmem
    exact h2 p ((dispatchPending_sublist f c.pending).subset hpmem)
  · intro s hs
    show s.1 < c.invocationCounter
    have hs2 : s ∈ c.settled ++ (dispatchPending f c.pending).2.1 := hs
    rw [List.mem_append] at hs2
    rcases hs2 with hsm | hsm
    · exact h3 s hsm
    · obtain ⟨r, hr, hid⟩ := dispatchPending_settle_src f c.pending s hsm
      rw [hid]
      exact h2 r hr

theorem IdsInv_close (c : ClientModel) (h : IdsInv c) : IdsInv (onClose c) := by
  obtain ⟨h1, h2, h3⟩ := h
  have key : ∀ s ∈ c.settled ++ c.pending.map
      (fun r => (r.invocationId,
        Outcome.rejected "RText service connection closed")),
      s.1 < c.invocationCounter := by
    intro s hs
    rw [List.mem_append] at hs
    rcases hs with hsm | hsm
    · exact h3 s hsm
    · rw [List.mem_map] at hsm
      obtain ⟨r, hr, hrs⟩ := hsm
      rw [← hrs]
      exact h2 r hr
  unfold onClose
  split
  · exact ⟨h1, h2, key⟩
  · exact ⟨h1, h2, key⟩

theorem IdsInv_apply (c : ClientModel) (e : Event) (h : IdsInv c) :
    IdsInv (applyEvent c e) := by
  cases e with
  | send d hp => exact IdsInv_send d hp c h
  | dispatch f => exact IdsInv_dispatch f c h
  | close => exact IdsInv_close c h
  | connect => exact h
  | startCall =>
    show IdsInv (start c).2
    unfold start
    repeat' split
    all_goals exact h
  | startResolve => exact h
  | startReject => exact h
  | stopCall =>
    show IdsInv (stop c).2
    unfold stop
    repeat' split
    · exact h
    · exact h
    · exact h
    · exact IdsInv_send _ _ _ h
  | stopFinally => exact h
  | reconnectFire =>
    show IdsInv (start { c with reconnectScheduled := false }).2
    unfold start
    repeat' split
    all_goals exact h

theorem StateInv_pack (c : ClientModel)
    (hs : c.state = ClientState.Stopping) (ho : c.onStopSome = true) :
    StateInv c := by
  refine ⟨fun hx => ?_, fun _ => ho⟩
  rw [hs] at hx
  exact ClientState.noConfusion hx

theorem StateInv_apply (c : ClientModel) (e : Event) (h : StateInv c) :
    StateInv (applyEvent c e) := by
  cases e with
  | send d hp =>
    show StateInv (send d hp c).2
    unfold send
    split
    · exact h
    · exact h
  | dispatch f => exact h
  | close =>
    show StateInv (onClose c)
    unfold onClose
    split
    · exact h
    · exact h
  | connect => exact h
  | startCall =>
    show StateInv (start c).2
    unfold start
    repeat' split
    · exact h
    · exact h
    · exact ⟨fun _ => rfl, fun hx => ClientState.noConfusion hx⟩
  | startResolve =>
    exact ⟨fun hx => ClientState.noConfusion hx,
      fun hx => ClientState.noConfusion hx⟩
  | startReject =>
    exact ⟨fun hx => ClientState.noConfusion hx,
      fun hx => ClientState.noConfusion hx⟩
  | stopCall =>
    show StateInv (stop c).2
    unfold stop
    repeat' split
    · exact h
    · exact h
    · exact h
    · exact StateInv_pack _ ((send_proj _ _ _).1) rfl
  | stopFinally =>
    exact ⟨fun hx => ClientState.noConfusion hx,
      fun hx => ClientState.noConfusion hx⟩
  | reconnectFire =>
    show StateInv (start { c with reconnectScheduled := false }).2
    unfold start
    repeat' split
    · exact h
    · exact h
    · exact ⟨fun _ => rfl, fun hx => ClientState.noConfusion hx⟩

theorem SettleInv_send (d : RequestData) (hp : Bool) (c : ClientModel)
    (h : IdsInv c) (hs : SettleInv c) : SettleInv (send d hp c).2 := by
  obtain ⟨_, _, h3⟩ := h
  obtain ⟨ha, hb⟩ := hs
  unfold send
  cases hc : (!c.connected)
  · rw [if_neg (by simp [hc])]
    constructor
    · intro p hp2
      rw [List.mem_append] at hp2
      rcases hp2 with hpm | hpm
      · exact ha p hpm
      · rw [List.mem_singleton] at hpm
        subst hpm
        show c.settled.countP
          (fun s => s.1 == c.invocationCounter) = 0
        rw [List.countP_eq_zero]
        intro s hsm
        simp only [beq_iff_eq]
        exact Nat.ne_of_lt (h3 s hsm)
    · intro i
      exact hb i
  · rw [if_pos (by simp [hc])]
    exact ⟨ha, hb⟩

theorem SettleInv_dispatch (f : Frame) (c : ClientModel)
    (h : IdsInv c) (hs : SettleInv c) : SettleInv (dispatchFrame f c) := by
  obtain ⟨h1, h2, h3⟩ := h
  obtain ⟨ha, hb⟩ := hs
  constructor
  · intro p hp2
    show (c.settled ++ (dispatchPending f c.pending).2.1).countP
      (fun s => s.1 == p.invocationId) = 0
    rw [List.countP_append]
    have hz1 : c.settled.countP (fun s => s.1 == p.invocationId) = 0 :=
      ha p ((dispatchPending_sublist f c.pending).subset hp2)
    have hz2 : (dispatchPending f c.pending).2.1.countP
        (fun s => s.1 == p.invocationId) = 0 := by
      rw [List.countP_eq_zero]
      intro x hx
      simp only [beq_iff_eq]
      exact dispatchPending_settle_fresh f c.pending h1 x hx p hp2
    omega
  · intro i
    show (c.settled ++ (dispatchPending f c.pending).2.1).countP
      (fun s => s.1 == i) ≤ 1
    rw [List.countP_append]
    by_cases hzero : (dispatchPending f c.pending).2.1.countP
        (fun s => s.1 == i) = 0
    · have := hb i
      rw [settledCount] at this
      omega
    · have hpos : 0 < (dispatchPending f c.pending).2.1.countP
          (fun s => s.1 == i) := Nat.pos_of_ne_zero hzero
      rw [List.countP_pos_iff] at hpos
      obtain ⟨x, hx, hxi⟩ := hpos
      have hxi2 : x.1 = i := beq_iff_eq.mp hxi
      obtain ⟨r, hr, hid⟩ := dispatchPending_settle_src f c.pending x hx
      have hra := ha r hr
      rw [settledCount] at hra
      have hc0 : c.settled.countP (fun s => s.1 == i) = 0 := by
        rw [← hxi2, hid]
        exact hra
      have hle : (dispatchPending f c.pending).2.1.countP
          (fun s => s.1 == i) ≤ 1 :=
        le_trans (List.countP_le_length _) (dispatchPending_settle_len f _)
      omega

theorem SettleInv_apply (c : ClientModel) (e : Event) (he : e ≠ Event.close)
    (h : IdsInv c) (hs : SettleInv c) : SettleInv (applyEvent c e) := by
  cases e with
  | send d hp => exact SettleInv_send d hp c h hs
  | dispatch f => exact SettleInv_dispatch f c h hs
  | close => exact absurd rfl he
  | connect => exact hs
  | startCall =>
    show SettleInv (start c).2
    unfold start
    repeat' split
    all_goals exact hs
  | startResolve => exact hs
  | startReject => exact hs
  | stopCall =>
    show SettleInv (stop c).2
    unfold stop
    repeat' split
    · exact hs
    · exact hs
    · exact hs
    · exact SettleInv_send _ _ _ h hs
  | stopFinally => exact hs
  | reconnectFire =>
    show SettleInv (start { c with reconnectScheduled := false }).2
    unfold start
    repeat' split
    all_goals exact hs

theorem run_preserves (P : ClientModel → Prop) (hinit : P initClient)
    (hstep : ∀ c e, P c → P (applyEvent c e)) (es : List Event) :
    P (run es) := by
  rw [run]
  suffices hgen : ∀ (l : List Event) (c : ClientModel),
      P c → P (l.foldl applyEvent c) from hgen es initClient hinit
  intro l
  induction l with
  | nil => intro c hc; exact hc
  | cons e l2 ih => intro c hc; exact ih (applyEvent c e) (hstep c e hc)

theorem run_preserves_open (P : ClientModel → Prop) (hinit : P initClient)
    (hstep : ∀ c e, e ≠ Event.close → P c → P (applyEvent c e))
    (es : List Event) (hes : Event.close ∉ es) : P (run es) := by
  rw [run]
  suffices hgen : ∀ (l : List Event), Event.close ∉ l →
      ∀ c : ClientModel, P c → P (l.foldl applyEvent c) from
    hgen es hes initClient hinit
  intro l
  induction l with
  | nil => intro _ c hc; exact hc
  | cons e l2 ih =>
    intro hni c hc
    have he : e ≠ Event.close := fun hEq => hni (hEq ▸ List.mem_cons_self e l2)
    have hl2 : Event.close ∉ l2 := fun hm => hni (List.mem_cons_of_mem e hm)
    exact ih hl2 (applyEvent c e) (hstep c e he hc)

theorem initClient_inv : IdsInv initClient ∧ StateInv initClient := by
  constructor
  · refine ⟨List.Pairwise.nil, ?_, ?_⟩ <;> intro x hx <;>
      simp [initClient] at hx
  · constructor <;> intro hx <;> simp [initClient] at hx

theorem run_IdsInv (es : List Event) : IdsInv (run es) :=
  run_preserves IdsInv initClient_inv.1 IdsInv_apply es

theorem run_StateInv (es : List Event) : StateInv (run es) :=
  run_preserves StateInv initClient_inv.2 StateInv_apply es

theorem run_open_inv (es : List Event) (hes : Event.close ∉ es) :
    IdsInv (run es) ∧ SettleInv (run es) := by
  refine run_preserves_open (fun c => IdsInv c ∧ SettleInv c) ?_ ?_ es hes
  · refine ⟨initClient_inv.1, ?_, ?_⟩
    · intro p hp2; simp [initClient] at hp2
    · intro i
      show List.countP (fun s : Nat × Outcome => s.1 == i) [] ≤ 1
      simp
  · intro c e he hc
    exact ⟨IdsInv_apply c e hc.1, SettleInv_apply c e he hc.1 hc.2⟩

/-!
Lemmas about the connector cache map and the manager invariant.
-/

/-- At most one cache entry per identity key. -/
def keysNodup (m : List (String × ConnectorDesc)) : Prop :=
  (m.map Prod.fst).Nodup

/-- Keys are unique and every cached connector token was allocated below
the fresh counter. -/
def CMInv (m : ConnectorManager) : Prop :=
  keysNodup m.connectorDescs ∧
  ∀ e ∈ m.connectorDescs, e.2.connector < m.nextConnectorId

theorem mapGet_mapSet_self (m : List (String × ConnectorDesc)) (k : String)
    (v : ConnectorDesc) : mapGet (mapSet m k v) k = some v := by
  induction m with
  | nil =>
    simp [mapGet, mapSet, List.find?_cons, beq_self_eq_true]
  | cons e rest ih =>
    cases he : (e.1 == k)
    · simp only [mapSet, he, Bool.false_eq_true, if_false]
      rw [mapGet, List.find?_cons]
      simp only [he]
      exact ih
    · simp only [mapSet, he, if_true]
      rw [mapGet, List.find?_cons]
      simp [beq_self_eq_true]

theorem mapSet_mem (m : List (String × ConnectorDesc)) (k : String)
    (v : ConnectorDesc) : ∀ e ∈ mapSet m k v, e = (k, v) ∨ e ∈ m := by
  induction m with
  | nil => intro e he; simp [mapSet] at he; exact Or.inl he
  | cons e0 rest ih =>
    intro e he
    cases hcond : (e0.1 == k) <;> simp only [mapSet, hcond] at he
    · simp only [Bool.false_eq_true, if_false, List.mem_cons] at he
      rcases he with he | he
      · exact Or.inr (by rw [he]; exact List.mem_cons_self e0 rest)
      · rcases ih e he with hl | hr
        · exact Or.inl hl
        · exact Or.inr (List.mem_cons_of_mem e0 hr)
    · simp only [if_true, List.mem_cons] at he
      rcases he with he | he
      · exact Or.inl he
      · exact Or.inr (List.mem_cons_of_mem e0 he)

theorem keysNodup_mapSet (m : List (String × ConnectorDesc)) (k : String)
    (v : ConnectorDesc) (h : keysNodup m) : keysNodup (mapSet m k v) := by
  induction m with
  | nil => simp [keysNodup, mapSet]
  | cons e rest ih =>
    rw [keysNodup, List.map_cons, List.nodup_cons] at h
    obtain ⟨hnot, hrest⟩ := h
    cases hcond : (e.1 == k)
    · have hk : e.1 ≠ k := beq_eq_false_iff_ne.mp hcond
      rw [keysNodup]
      simp only [mapSet, hcond, Bool.false_eq_true, if_false, List.map_cons,
        List.nodup_cons]
      constructor
      · intro hmem
        rw [List.mem_map] at hmem
        obtain ⟨e2, he2, he2k⟩ := hmem
        rcases mapSet_mem rest k v e2 he2 with hl | hr
        · rw [hl] at he2k
          exact hk he2k.symm
        · exact hnot (he2k ▸ List.mem_map_of_mem Prod.fst hr)
      · exact ih hrest
    · rw [keysNodup]
      simp only [mapSet, hcond, if_true, List.map_cons, List.nodup_cons]
      refine ⟨?_, hrest⟩
      rw [← beq_iff_eq.mp hcond]
      exact hnot

/-- The three branch equations of connectorForFile. -/
theorem connectorForFile_hit (env : CMEnv) (file : String)
    (m : ConnectorManager) (config : ServiceConfig) (desc : ConnectorDesc)
    (hres : env.findServiceConfig file = some config)
    (hget : mapGet m.connectorDescs
      (descKey config (env.filePattern file)) = some desc)
    (heq : desc.checksum = configChecksum env config) :
    connectorForFile env file m = (some desc.connector, m) := by
  unfold connectorForFile
  rw [hres]
  simp only [hget, heq, beq_self_eq_true, if_true]

theorem connectorForFile_stale (env : CMEnv) (file : String)
    (m : ConnectorManager) (config : ServiceConfig) (desc : ConnectorDesc)
    (hres : env.findServiceConfig file = some config)
    (hget : mapGet m.connectorDescs
      (descKey config (env.filePattern file)) = some desc)
    (hne : desc.checksum ≠ configChecksum env config) :
    connectorForFile env file m =
      (some m.nextConnectorId,
        { connectorDescs := mapSet m.connectorDescs
            (descKey config (env.filePattern file))
            { connector := m.nextConnectorId,
              checksum := configChecksum env config }
          nextConnectorId := m.nextConnectorId + 1
          stopLog := m.stopLog ++ [desc.connector] }) := by
  unfold connectorForFile
  rw [hres]
  simp only [hget, beq_eq_false_iff_ne.mpr hne, Bool.false_eq_true, if_false]
  rfl

theorem connectorForFile_miss (env : CMEnv) (file : String)
    (m : ConnectorManager) (config : ServiceConfig)
    (hres : env.findServiceConfig file = some config)
    (hget : mapGet m.connectorDescs
      (descKey config (env.filePattern file)) = none) :
    connectorForFile env file m =
      (some m.nextConnectorId,
        { connectorDescs := mapSet m.connectorDescs
            (descKey config (env.filePattern file))
            { connector := m.nextConnectorId,
              checksum := configChecksum env config }
          nextConnectorId := m.nextConnectorId + 1
          stopLog := m.stopLog }) := by
  unfold connectorForFile
  rw [hres]
  simp only [hget]
  rfl

theorem CMInv_create (env : CMEnv) (config : ServiceConfig) (pattern : String)
    (m : ConnectorManager) (h : CMInv m) :
    CMInv (createConnector env config pattern m).2 := by
  obtain ⟨hk, hb⟩ := h
  constructor
  · exact keysNodup_mapSet _ _ _ hk
  · intro e he
    rcases mapSet_mem _ _ _ e he with hl | hr
    · rw [hl]
      exact Nat.lt_succ_self _
    · exact Nat.lt_succ_of_lt (hb e hr)

theorem CMInv_connectorForFile (env : CMEnv) (file : String)
    (m : ConnectorManager) (h : CMInv m) :
    CMInv (connectorForFile env file m).2 := by
  unfold connectorForFile
  cases hres : env.findServiceConfig file
  · exact h
  · rename_i config
    cases hget : mapGet m.connectorDescs (descKey config (env.filePattern file))
    · simp only [hget]
      exact CMInv_create env config _ m h
    · rename_i desc
      simp only [hget]
      split
      · exact h
      · exact CMInv_create env config _
          { m with stopLog := m.stopLog ++ [desc.connector] } h

theorem connectorForFile_post (env : CMEnv) (file : String)
    (m : ConnectorManager) (config : ServiceConfig)
    (hres : env.findServiceConfig file = some config) :
    ∃ c1, (connectorForFile env file m).1 = some c1 ∧
      mapGet (connectorForFile env file m).2.connectorDescs
        (descKey config (env.filePattern file)) =
        some { connector := c1, checksum := configChecksum env config } := by
  cases hget : mapGet m.connectorDescs
      (descKey config (env.filePattern file)) with
  | none =>
    rw [connectorForFile_miss env file m config hres hget]
    exact ⟨m.nextConnectorId, rfl, mapGet_mapSet_self _ _ _⟩
  | some desc =>
    by_cases heq : desc.checksum = configChecksum env config
    · rw [connectorForFile_hit env file m config desc hres hget heq]
      refine ⟨desc.connector, rfl, ?_⟩
      show mapGet m.connectorDescs (descKey config (env.filePattern file)) = _
      rw [hget, ← heq]
    · rw [connectorForFile_stale env file m config desc hres hget heq]
      exact ⟨m.nextConnectorId, rfl, mapGet_mapSet_self _ _ _⟩

theorem runCM_CMInv (qs : List (CMEnv × String)) : CMInv (runCM qs) := by
  rw [runCM]
  suffices hgen : ∀ (l : List (CMEnv × String)) (m : ConnectorManager),
      CMInv m → CMInv (l.foldl applyLookup m) by
    refine hgen qs initCM ⟨?_, ?_⟩
    · simp [keysNodup, initCM]
    · intro e he
      simp [initCM] at he
  intro l
  induction l with
  | nil => intro m hm; exact hm
  | cons q l2 ih =>
    intro m hm
    exact ih _ (CMInv_connectorForFile q.1 q.2 m hm)

/-!
Claim theorems.
-/

/-- C1 is refuted at a concrete run: on an open connection a request with
invocation id 0 is pending, then the terminal unknown_command_error frame
for id 0 is dispatched; afterwards the request is deregistered but the
settlement log is still empty, so the promise was never settled as a
failure, contradicting the claim that such a frame settles it and that no
request is left unsettled after its terminal frame. -/
theorem c1_counterexample :
    (run (esBase ++ [Event.send { command := "version" } false])).pending =
      [{ invocationId := 0, command := "version",
         hasProgressCallback := false }] ∧
    (run esC1).pending = [] ∧
    (run esC1).settled = [] := by decide

/-- C1 (amended): on a connection that was never closed every request
promise is settled at most once; a response frame bearing a pending
invocation id settles that request as a success exactly once and
deregisters it; an unknown_command_error or unsupported_version frame
deregisters the matching request without settling it at all. -/
theorem c1_request_settlement (es : List Event) (hopen : Event.close ∉ es) :
    (∀ i, settledCount i (run es) ≤ 1) ∧
    (∀ f : Frame, f.type = "response" →
      (∃ r ∈ (run es).pending, r.invocationId = f.invocation_id) →
      settledCount f.invocation_id (dispatchFrame f (run es)) = 1 ∧
      (f.invocation_id, Outcome.resolved f) ∈
        (dispatchFrame f (run es)).settled ∧
      ∀ r2 ∈ (dispatchFrame f (run es)).pending,
        r2.invocationId ≠ f.invocation_id) ∧
    (∀ f : Frame,
      f.type = "unknown_command_error" ∨ f.type = "unsupported_version" →
      (dispatchFrame f (run es)).settled = (run es).settled ∧
      ∀ r2 ∈ (run es).pending, r2.invocationId = f.invocation_id →
        r2 ∉ (dispatchFrame f (run es)).pending) := by
  obtain ⟨hids, hsettle⟩ := run_open_inv es hopen
  obtain ⟨h1, h2, h3⟩ := hids
  refine ⟨hsettle.2, ?_, ?_⟩
  · intro f ht hex
    obtain ⟨r, hr, hid⟩ := hex
    have hany : (run es).pending.any
        (fun r2 => r2.invocationId == f.invocation_id) = true := by
      rw [List.any_eq_true]
      exact ⟨r, hr, beq_iff_eq.mpr hid⟩
    have hsp := dispatchPending_response f ht (run es).pending
    rw [hany, if_pos rfl] at hsp
    refine ⟨?_, ?_, ?_⟩
    · show ((run es).settled ++
        (dispatchPending f (run es).pending).2.1).countP
          (fun s => s.1 == f.invocation_id) = 1
      rw [hsp, List.countP_append]
      have hz : (run es).settled.countP
          (fun s => s.1 == f.invocation_id) = 0 := by
        have := hsettle.1 r hr
        rw [settledCount] at this
        rw [← hid]
        exact this
      rw [hz]
      simp [beq_self_eq_true]
    · show (f.invocation_id, Outcome.resolved f) ∈
        (run es).settled ++ (dispatchPending f (run es).pending).2.1
      rw [hsp, List.mem_append]
      exact Or.inr (List.mem_singleton.mpr rfl)
    · intro r2 hr2
      have hpend := dispatchPending_terminal_pending f (Or.inl ht)
        (run es).pending h1
      rw [show (dispatchFrame f (run es)).pending =
        (dispatchPending f (run es).pending).1 from rfl, hpend,
        List.mem_filter] at hr2
      exact bne_iff_ne.mp hr2.2
  · intro f herr
    have herrs := dispatchPending_error f herr (run es).pending
    refine ⟨?_, ?_⟩
    · show (run es).settled ++
        (dispatchPending f (run es).pending).2.1 = (run es).settled
      rw [herrs.1, List.append_nil]
    · intro r2 hr2 hid hmem
      have hpend := dispatchPending_terminal_pending f
        (Or.inr (herr.imp id id)) (run es).pending h1
      rw [show (dispatchFrame f (run es)).pending =
        (dispatchPending f (run es).pending).1 from rfl, hpend,
        List.mem_filter] at hmem
      exact bne_iff_ne.mp hmem.2 hid

/-- Witness for the amended C1 at a concrete run: a response frame for
the pending id 0 settles the promise exactly once. -/
theorem c1_request_settlement_witness :
    settledCount 0 (dispatchFrame { type := "response", invocation_id := 0 }
      (run esC2)) = 1 :=
  ((c1_request_settlement esC2 (by decide)).2.1
    { type := "response", invocation_id := 0 } rfl (by decide)).1

/-- C2 is refuted at a concrete run: the unsolicited-close handler calls
rejectFunc of the pending request (its connection-closed rejection is
logged) yet the PendingRequest with id 0 is still registered afterwards,
so a terminal event did not remove it from the pending set. -/
theorem c2_counterexample :
    (onClose (run esC2)).settled =
      [(0, Outcome.rejected "RText service connection closed")] ∧
    (onClose (run esC2)).pending =
      [{ invocationId := 0, command := "load_model",
         hasProgressCallback := true }] := by decide

/-- C2 (amended): a terminal frame removes exactly the one matching
PendingRequest (dispatching the same terminal frame again is a no-op, so
no request is removed twice), but the unsolicited-close handler leaves
the pending list unchanged: connection loss rejects the promises without
consuming the PendingRequest entries. -/
theorem c2_pending_consumption (c : ClientModel)
    (hdist : c.pending.Pairwise
      (fun a b => a.invocationId ≠ b.invocationId)) :
    (onClose c).pending = c.pending ∧
    ∀ f : Frame,
      f.type = "response" ∨ f.type = "unknown_command_error" ∨
        f.type = "unsupported_version" →
      (dispatchFrame f c).pending =
        c.pending.filter (fun r => r.invocationId != f.invocation_id) ∧
      dispatchFrame f (dispatchFrame f c) = dispatchFrame f c := by
  constructor
  · unfold onClose
    split <;> rfl
  · intro f hterm
    have hpend : (dispatchFrame f c).pending =
        c.pending.filter (fun r => r.invocationId != f.invocation_id) :=
      dispatchPending_terminal_pending f hterm c.pending hdist
    refine ⟨hpend, ?_⟩
    apply dispatchFrame_no_match
    intro r hr
    rw [hpend, List.mem_filter] at hr
    exact bne_iff_ne.mp hr.2

/-- Witness for the amended C2 at a concrete run. -/
theorem c2_pending_consumption_witness :
    (onClose (run esC2)).pending = (run esC2).pending ∧
    (dispatchFrame { type := "response", invocation_id := 0 }
        (run esC2)).pending =
      (run esC2).pending.filter (fun r => r.invocationId != 0) :=
  ⟨(c2_pending_consumption (run esC2) (by decide)).1,
   ((c2_pending_consumption (run esC2) (by decide)).2
     { type := "response", invocation_id := 0 } (Or.inl rfl)).1⟩

/-- The result of send on a connected client carries the current
invocation counter. -/
theorem send_connected_fst (d : RequestData) (hp : Bool) (c : ClientModel)
    (hc : c.connected = true) :
    (send d hp c).1 = SendResult.deferred c.invocationCounter := by
  simp [send, hc]

/-- C3: in every reachable client state the currently pending requests
bear pairwise distinct invocation ids, each below the counter; a send on
a connected client stamps exactly the current counter (so the fresh id
differs from every pending id) and a second send immediately after
stamps the successor, so ids of successive requests strictly increase. -/
theorem c3_invocation_ids (es : List Event) :
    (run es).pending.Pairwise
      (fun a b => a.invocationId ≠ b.invocationId) ∧
    (∀ p ∈ (run es).pending,
      p.invocationId < (run es).invocationCounter) ∧
    (∀ d hp, (run es).connected = true →
      (send d hp (run es)).1 =
        SendResult.deferred (run es).invocationCounter ∧
      (∀ p ∈ (run es).pending,
        p.invocationId ≠ (run es).invocationCounter) ∧
      (∀ d2 hp2, (send d2 hp2 (send d hp (run es)).2).1 =
        SendResult.deferred ((run es).invocationCounter + 1))) := by
  obtain ⟨h1, h2, _⟩ := run_IdsInv es
  refine ⟨h1, h2, ?_⟩
  intro d hp hc
  refine ⟨?_, ?_, ?_⟩
  · simp [send, hc]
  · intro p hpm
    exact Nat.ne_of_lt (h2 p hpm)
  · intro d2 hp2
    have hc2 : (send d hp (run es)).2.connected = true := by
      rw [(send_proj d hp (run es)).2.1, hc]
    have hcount : (send d hp (run es)).2.invocationCounter =
        (run es).invocationCounter + 1 := by
      simp [send, hc]
    rw [send_connected_fst d2 hp2 _ hc2, hcount]

/-- Witness for C3: successive sends on the connected base run stamp the
ids 0 and 1. -/
theorem c3_invocation_ids_witness :
    (send { command := "version" } false (run esBase)).1 =
      SendResult.deferred 0 ∧
    (send { command := "context_info" } false
      (send { command := "version" } false (run esBase)).2).1 =
      SendResult.deferred 1 :=
  ⟨((c3_invocation_ids esBase).2.2 { command := "version" } false
      (by decide)).1,
   ((c3_invocation_ids esBase).2.2 { command := "version" } false
      (by decide)).2.2 { command := "context_info" } false⟩

/-- C4: send on a disconnected client returns the immediately rejected
not-connected result and changes nothing at all; send on a connected
client returns a deferred result carrying the current counter, appends
exactly one PendingRequest with that id and the given command, writes
the message stamped with type request, version 1 and that id, increments
the counter by one, leaves the settlement log unchanged, and the
returned promise has received no settlement call yet. -/
theorem c4_send (d : RequestData) (hp : Bool) (es : List Event) :
    ((run es).connected = false →
      send d hp (run es) = (SendResult.rejectedNotConnected, run es)) ∧
    ((run es).connected = true →
      send d hp (run es) =
        (SendResult.deferred (run es).invocationCounter,
          { run es with
            pending := (run es).pending ++
              [{ invocationId := (run es).invocationCounter,
                 command := d.command, hasProgressCallback := hp }]
            written := (run es).written ++
              [{ command := d.command, type := "request", version := 1,
                 invocation_id := (run es).invocationCounter }]
            invocationCounter := (run es).invocationCounter + 1 }) ∧
      settledCount (run es).invocationCounter (send d hp (run es)).2 = 0) := by
  constructor
  · intro hc
    simp [send, hc]
  · intro hc
    constructor
    · simp [send, hc]
    · have h3 := (run_IdsInv es).2.2
      show (send d hp (run es)).2.settled.countP
        (fun s => s.1 == (run es).invocationCounter) = 0
      rw [(send_proj d hp (run es)).2.2.2.2.2.2.1]
      rw [List.countP_eq_zero]
      intro s hs
      simp only [beq_iff_eq]
      exact Nat.ne_of_lt (h3 s hs)

/-- Witness for C4: a send on the fresh disconnected client is refused
with the client unchanged, and a send on the connected base run has an
unsettled promise. -/
theorem c4_send_witness :
    send { command := "find_elements" } false initClient =
      (SendResult.rejectedNotConnected, initClient) ∧
    settledCount 0 (send { command := "version" } false (run esBase)).2 = 0 :=
  ⟨(c4_send { command := "find_elements" } false []).1 (by decide),
   ((c4_send { command := "version" } false esBase).2 (by decide)).2⟩

/-- C5 is refuted at a concrete run for the connect-failure half of the
claim: after the launch announced a port, the then continuation has
already set the state to Running and cached the start promise, and that
promise is settled only by the connect callback; when the socket is
closed without the connect callback ever firing (a failed connect), the
close handler changes neither the state nor the cached promise, so the
state never becomes StartFailed, the in-flight marker is not cleared,
and a later start call returns the stale in-flight promise and spawns
no fresh process instead of beginning a fresh attempt. -/
theorem c5_counterexample :
    (run [Event.startCall, Event.startResolve, Event.close]).state =
      ClientState.Running ∧
    (run [Event.startCall, Event.startResolve, Event.close]).state ≠
      ClientState.StartFailed ∧
    (run [Event.startCall, Event.startResolve, Event.close]).onStartSome =
      true ∧
    (run [Event.startCall, Event.startResolve, Event.close]).connected =
      false ∧
    start (run [Event.startCall, Event.startResolve, Event.close]) =
      (StartResult.joinedInFlight,
        run [Event.startCall, Event.startResolve, Event.close]) ∧
    (start (run [Event.startCall, Event.startResolve,
      Event.close])).2.spawnCount = 1 := by decide

/-- C5 (amended): while the reachable state is Starting a cached start
promise exists, so a further start call joins the in-flight outcome and
returns the client unchanged (in particular it spawns no second
process); the launch-failure catch continuation moves the state to
StartFailed and clears the in-flight marker, after which a new start
call begins a fresh attempt and spawns exactly one new process; a
connect failure however reaches neither that continuation nor any other
clearing code: the socket close handler leaves the state and the
in-flight marker unchanged, so whenever the marker is set and the
client is not Stopping, a later start call returns the stale in-flight
promise unchanged instead of beginning a fresh attempt. -/
theorem c5_start_idempotent (es : List Event) :
    ((run es).state = ClientState.Starting →
      start (run es) = (StartResult.joinedInFlight, run es)) ∧
    (startReject (run es)).state = ClientState.StartFailed ∧
    (startReject (run es)).onStartSome = false ∧
    (start (startReject (run es))).1 = StartResult.started ∧
    (start (startReject (run es))).2.spawnCount = (run es).spawnCount + 1 ∧
    (start (startReject (run es))).2.state = ClientState.Starting ∧
    (onClose (run es)).state = (run es).state ∧
    (onClose (run es)).onStartSome = (run es).onStartSome ∧
    ((run es).onStartSome = true →
      (run es).state ≠ ClientState.Stopping →
      start (run es) = (StartResult.joinedInFlight, run es)) := by
  have hnostop : (startReject (run es)).state ≠ ClientState.Stopping :=
    fun h => ClientState.noConfusion h
  have hnoflight : ¬(startReject (run es)).onStartSome = true :=
    fun h => Bool.noConfusion h
  refine ⟨?_, rfl, rfl, ?_, ?_, ?_, ?_, ?_, ?_⟩
  · intro hs
    have ho : (run es).onStartSome = true := (run_StateInv es).1 hs
    have hns : (run es).state ≠ ClientState.Stopping := by
      rw [hs]
      exact fun h => ClientState.noConfusion h
    unfold start
    rw [if_neg hns, if_pos ho]
  · unfold start
    rw [if_neg hnostop, if_neg hnoflight]
  · unfold start
    rw [if_neg hnostop, if_neg hnoflight]
    rfl
  · unfold start
    rw [if_neg hnostop, if_neg hnoflight]
  · unfold onClose
    split <;> rfl
  · unfold onClose
    split <;> rfl
  · intro ho hns
    unfold start
    rw [if_neg hns, if_pos ho]

/-- Witness for C5: after one bare start call the state is Starting and
a second start call joins the in-flight attempt without changes. -/
theorem c5_start_idempotent_witness :
    start (run [Event.startCall]) =
      (StartResult.joinedInFlight, run [Event.startCall]) :=
  (c5_start_idempotent [Event.startCall]).1 (by decide)

/-- The initiated branch equation of stop. -/
theorem stop_initiated (c : ClientModel)
    (h1 : c.state ≠ ClientState.Stopped) (h2 : c.state ≠ ClientState.Initial)
    (h3 : c.state ≠ ClientState.Stopping) :
    stop c = (StopResult.initiated,
      { (send { command := "stop" } false
          { c with
            reconnectScheduled := false
            keepAlive := false
            state := ClientState.Stopping }).2 with
        onStopSome := true }) := by
  unfold stop
  rw [if_neg (by rintro (hx | hx); exacts [h1 hx, h2 hx]), if_neg h3]

/-- C6: stop is a no-op in Stopped and Initial; in a reachable Stopping
state it returns the cached in-flight stop outcome unchanged; otherwise
it cancels the reconnect timer and the keep-alive probe, moves to
Stopping, caches a stop promise, performs the graceful stop request
(writing the stamped stop command when connected, with its outcome
ignored), and the finally continuation then invokes the termination
verifier exactly once, moves to Stopped and clears the cached start and
stop promises. -/
theorem c6_stop (es : List Event) :
    (((run es).state = ClientState.Stopped ∨
      (run es).state = ClientState.Initial) →
      stop (run es) = (StopResult.noop, run es)) ∧
    ((run es).state = ClientState.Stopping →
      stop (run es) = (StopResult.joinedInFlight, run es)) ∧
    ((run es).state ≠ ClientState.Stopped →
     (run es).state ≠ ClientState.Initial →
     (run es).state ≠ ClientState.Stopping →
      (stop (run es)).1 = StopResult.initiated ∧
      (stop (run es)).2.reconnectScheduled = false ∧
      (stop (run es)).2.keepAlive = false ∧
      (stop (run es)).2.state = ClientState.Stopping ∧
      (stop (run es)).2.onStopSome = true ∧
      ((run es).connected = true →
        (stop (run es)).2.written = (run es).written ++
          [{ command := "stop", type := "request", version := 1,
             invocation_id := (run es).invocationCounter }]) ∧
      (stopFinally (stop (run es)).2).state = ClientState.Stopped ∧
      (stopFinally (stop (run es)).2).onStartSome = false ∧
      (stopFinally (stop (run es)).2).onStopSome = false ∧
      (stopFinally (stop (run es)).2).verifierCalls =
        (run es).verifierCalls + 1) := by
  refine ⟨?_, ?_, ?_⟩
  · intro h
    unfold stop
    rw [if_pos h]
  · intro h
    have ho : (run es).onStopSome = true := (run_StateInv es).2 h
    unfold stop
    rw [if_neg (by rintro (hx | hx) <;> rw [h] at hx <;>
      exact ClientState.noConfusion hx), if_pos h, if_pos ho]
  · intro hns hni hnst
    rw [stop_initiated (run es) hns hni hnst]
    have hsp := send_proj { command := "stop" } false
      { run es with
        reconnectScheduled := false
        keepAlive := false
        state := ClientState.Stopping }
    refine ⟨rfl, hsp.2.2.2.2.2.1, hsp.2.2.2.2.1, hsp.1, rfl, ?_, rfl, rfl,
      rfl, ?_⟩
    · intro hc
      show (send { command := "stop" } false
        { run es with
          reconnectScheduled := false
          keepAlive := false
          state := ClientState.Stopping }).2.written = _
      simp [send, hc]
    · show (send { command := "stop" } false
        { run es with
          reconnectScheduled := false
          keepAlive := false
          state := ClientState.Stopping }).2.verifierCalls + 1 = _
      rw [hsp.2.2.2.2.2.2.2.1]

/-- Witness for C6: stopping the running base client initiates the stop
and the finally continuation reaches Stopped. -/
theorem c6_stop_witness :
    (stop (run esBase)).1 = StopResult.initiated ∧
    (stopFinally (stop (run esBase)).2).state = ClientState.Stopped ∧
    (stop (run esBase)).2.keepAlive = false := by
  have h := (c6_stop esBase).2.2 (by decide) (by decide) (by decide)
  exact ⟨h.1, h.2.2.2.2.2.2.1, h.2.2.1⟩

/-- C7: the unsolicited-close handler marks the client disconnected,
appends exactly one connection-closed rejection per pending request to
the settlement log, cancels the keep-alive probe, refuses every request
sent afterwards on the dead connection, and schedules exactly one
reconnect timer when and only when the state was Running. -/
theorem c7_unsolicited_close (c : ClientModel) :
    (onClose c).connected = false ∧
    (onClose c).settled = c.settled ++ c.pending.map
      (fun r => (r.invocationId,
        Outcome.rejected "RText service connection closed")) ∧
    (∀ r ∈ c.pending,
      (r.invocationId, Outcome.rejected "RText service connection closed") ∈
        (onClose c).settled) ∧
    (onClose c).keepAlive = false ∧
    (∀ d hp, send d hp (onClose c) =
      (SendResult.rejectedNotConnected, onClose c)) ∧
    (onClose c).reconnectTimersSet = c.reconnectTimersSet +
      (if c.state = ClientState.Running then 1 else 0) := by
  have hconn : (onClose c).connected = false := by
    unfold onClose
    split <;> rfl
  have hset : (onClose c).settled = c.settled ++ c.pending.map
      (fun r => (r.invocationId,
        Outcome.rejected "RText service connection closed")) := by
    unfold onClose
    split <;> rfl
  refine ⟨hconn, hset, ?_, ?_, ?_, ?_⟩
  · intro r hr
    rw [hset, List.mem_append]
    exact Or.inr (List.mem_map_of_mem _ hr)
  · unfold onClose
    split <;> rfl
  · intro d hp
    simp [send, hconn]
  · unfold onClose
    split <;> rfl

/-- Witness for C7: closing the connection of the base run with one
pending request logs its rejection and the next send is refused. -/
theorem c7_unsolicited_close_witness :
    (0, Outcome.rejected "RText service connection closed") ∈
      (onClose (run esC2)).settled ∧
    send { command := "version" } false (onClose (run esC2)) =
      (SendResult.rejectedNotConnected, onClose (run esC2)) ∧
    (onClose (run esC2)).reconnectTimersSet =
      (run esC2).reconnectTimersSet +
        (if (run esC2).state = ClientState.Running then 1 else 0) := by
  have h := c7_unsolicited_close (run esC2)
  exact ⟨h.2.2.1
      { invocationId := 0
        command := "load_model"
        hasProgressCallback := true } (by decide),
    h.2.2.2.2.1 { command := "version" } false, h.2.2.2.2.2⟩

/-- C10: calling start while the state is Stopping fails at once with
the cannot-restart-while-stopping error, leaving the whole client state,
including the cached in-flight stop, untouched. -/
theorem c10_start_while_stopping (c : ClientModel)
    (h : c.state = ClientState.Stopping) :
    start c = (StartResult.throwStopping, c) := by
  unfold start
  rw [if_pos h]

/-- Witness for C10 at a concrete stopping client. -/
theorem c10_start_while_stopping_witness :
    start { initClient with state := ClientState.Stopping } =
      (StartResult.throwStopping,
        { initClient with state := ClientState.Stopping }) :=
  c10_start_while_stopping { initClient with state := ClientState.Stopping }
    rfl

/-- A successful cache lookup comes from an entry of the map whose key
is the looked-up key. -/
theorem mapGet_mem (m : List (String × ConnectorDesc)) (k : String)
    (v : ConnectorDesc) (h : mapGet m k = some v) : (k, v) ∈ m := by
  rw [mapGet, Option.map_eq_some'] at h
  obtain ⟨e, hfind, he⟩ := h
  have hmem := List.mem_of_find?_eq_some hfind
  have hpred := List.find?_some hfind
  have hk : e.1 = k := beq_iff_eq.mp hpred
  rw [← hk, ← he]
  exact hmem

/-- C8: every reachable manager holds at most one cache entry per
identity key; when a file resolves to a config, connectorForFile yields
a connector, and a repeated call with the descriptor checksum unchanged
returns the identical connector leaving the cache untouched; once the
current checksum differs from the stored one, the next call stops
exactly the previously cached connector and stores a fresh, distinct
connector under the same identity key. -/
theorem c8_connector_cache (qs : List (CMEnv × String)) (env env2 : CMEnv)
    (file : String) (config : ServiceConfig)
    (hres : env.findServiceConfig file = some config)
    (hres2 : env2.findServiceConfig file = some config)
    (hpat : env2.filePattern file = env.filePattern file) :
    ((runCM qs).connectorDescs.map Prod.fst).Nodup ∧
    (∃ c1, (connectorForFile env file (runCM qs)).1 = some c1) ∧
    (connectorForFile env file (connectorForFile env file (runCM qs)).2 =
      ((connectorForFile env file (runCM qs)).1,
        (connectorForFile env file (runCM qs)).2)) ∧
    (configChecksum env2 config ≠ configChecksum env config →
      ∀ c1 m1, connectorForFile env file (runCM qs) = (some c1, m1) →
        (connectorForFile env2 file m1).1 = some m1.nextConnectorId ∧
        m1.nextConnectorId ≠ c1 ∧
        (connectorForFile env2 file m1).2.stopLog = m1.stopLog ++ [c1] ∧
        mapGet (connectorForFile env2 file m1).2.connectorDescs
          (descKey config (env.filePattern file)) =
          some { connector := m1.nextConnectorId
                 checksum := configChecksum env2 config } ∧
        ((connectorForFile env2 file m1).2.connectorDescs.map
          Prod.fst).Nodup) := by
  obtain ⟨c0, h0, hstore0⟩ :=
    connectorForFile_post env file (runCM qs) config hres
  refine ⟨(runCM_CMInv qs).1, ⟨c0, h0⟩, ?_, ?_⟩
  · rw [connectorForFile_hit env file _ config
      { connector := c0, checksum := configChecksum env config }
      hres hstore0 rfl, h0]
  · intro hch c1 m1 hfirst
    have h0b : (connectorForFile env file (runCM qs)).1 = some c1 := by
      rw [hfirst]
    have h2b : (connectorForFile env file (runCM qs)).2 = m1 := by
      rw [hfirst]
    have hc0 : c0 = c1 := by
      rw [h0] at h0b
      exact Option.some.inj h0b
    have hstore1 : mapGet m1.connectorDescs
        (descKey config (env.filePattern file)) =
        some { connector := c1, checksum := configChecksum env config } := by
      rw [← h2b, hstore0, hc0]
    have hCM : CMInv m1 := by
      rw [← h2b]
      exact CMInv_connectorForFile env file (runCM qs) (runCM_CMInv qs)
    have hget2 : mapGet m1.connectorDescs
        (descKey config (env2.filePattern file)) =
        some { connector := c1, checksum := configChecksum env config } := by
      rw [hpat]
      exact hstore1
    have hne2 : ({ connector := c1
                   checksum := configChecksum env config } :
          ConnectorDesc).checksum ≠
        configChecksum env2 config := by
      show configChecksum env config ≠ configChecksum env2 config
      exact fun hEq => hch hEq.symm
    have hstale := connectorForFile_stale env2 file m1 config
      { connector := c1, checksum := configChecksum env config }
      hres2 hget2 hne2
    have hlt : c1 < m1.nextConnectorId :=
      hCM.2 _ (mapGet_mem m1.connectorDescs
        (descKey config (env2.filePattern file)) _ hget2)
    refine ⟨?_, ne_of_gt hlt, ?_, ?_, ?_⟩
    · rw [hstale]
    · rw [hstale]
    · rw [hstale, hpat]
      exact mapGet_mapSet_self _ _ _
    · rw [hstale]
      exact keysNodup_mapSet _ _ _ hCM.1

/-- Witness for C8: on a concrete manager the second lookup with an
unchanged checksum returns the cached connector 0 and leaves the cache
untouched, while a lookup after the checksum changed stops connector 0. -/
theorem c8_connector_cache_witness :
    (connectorForFile envA "w/a.w" (connectorForFile envA "w/a.w" initCM).2 =
      ((connectorForFile envA "w/a.w" initCM).1,
        (connectorForFile envA "w/a.w" initCM).2)) ∧
    (connectorForFile envB "w/a.w"
        (connectorForFile envA "w/a.w" initCM).2).2.stopLog =
      (connectorForFile envA "w/a.w" initCM).2.stopLog ++ [0] := by
  have h := c8_connector_cache [] envA envB "w/a.w" cfgW (by decide)
    (by decide) (by decide)
  refine ⟨h.2.2.1, ?_⟩
  exact (h.2.2.2 (by decide) 0 (connectorForFile envA "w/a.w" initCM).2
    (by decide)).2.2.1

/-- C9 is refuted at a concrete manager: the descriptor file is absent,
so the checksum computation yields none; the first access caches
connector 0 under an absent checksum, and the next access for the same
identity key returns that cached connector with the manager unchanged,
stopping nothing and creating no replacement, because the absent current
checksum compares equal to the absent cached checksum. -/
theorem c9_counterexample :
    configChecksum env0 cfg0 = none ∧
    (connectorForFile env0 "d/a.x" initCM).1 = some 0 ∧
    connectorForFile env0 "d/a.x" (connectorForFile env0 "d/a.x" initCM).2 =
      (some 0, (connectorForFile env0 "d/a.x" initCM).2) ∧
    (connectorForFile env0 "d/a.x"
      (connectorForFile env0 "d/a.x" initCM).2).2.stopLog = [] := by decide

/-- C9 (amended): when the descriptor file does not exist the checksum
computation yields none; an absent current checksum differs from any
previously cached present checksum value, forcing the next access to
stop the cached connector and create a replacement; but when the cached
checksum is itself absent, the two absent checksums compare equal and
the cached connector is returned with the manager unchanged. -/
theorem c9_absent_descriptor (env : CMEnv) (config : ServiceConfig)
    (m : ConnectorManager) (file : String)
    (hres : env.findServiceConfig file = some config)
    (hgone : env.fsExists config.file = false) :
    configChecksum env config = none ∧
    (∀ desc, mapGet m.connectorDescs
        (descKey config (env.filePattern file)) = some desc →
      ((∃ s, desc.checksum = some s) →
        (connectorForFile env file m).1 = some m.nextConnectorId ∧
        (connectorForFile env file m).2.stopLog =
          m.stopLog ++ [desc.connector]) ∧
      (desc.checksum = none →
        connectorForFile env file m = (some desc.connector, m))) := by
  have hck : configChecksum env config = none := by
    simp [configChecksum, hgone]
  refine ⟨hck, ?_⟩
  intro desc hget
  constructor
  · rintro ⟨s, hs⟩
    have hne : desc.checksum ≠ configChecksum env config := by
      rw [hs, hck]
      exact fun hx => Option.noConfusion hx
    rw [connectorForFile_stale env file m config desc hres hget hne]
    exact ⟨rfl, rfl⟩
  · intro hnone
    exact connectorForFile_hit env file m config desc hres hget
      (by rw [hnone, hck])

/-- Witness for the amended C9: with the descriptor absent both at
creation and at the second access, the cached connector 0 is returned
unchanged. -/
theorem c9_absent_descriptor_witness :
    configChecksum env0 cfg0 = none ∧
    connectorForFile env0 "d/a.x" (connectorForFile env0 "d/a.x" initCM).2 =
      (some 0, (connectorForFile env0 "d/a.x" initCM).2) := by
  have h := c9_absent_descriptor env0 cfg0
    (connectorForFile env0 "d/a.x" initCM).2 "d/a.x" (by decide) (by decide)
  exact ⟨h.1, (h.2 { connector := 0, checksum := none } (by decide)).2 rfl⟩
